import Mathlib

/-!
Shallow embedding of the event correlation and wait manager of the Pincer
repository, file src/pincer/utils/event_mgr.py.

Modelling conventions:
- An event argument tuple is a list of natural numbers (the payloads are
  treated as atoms by the manager).
- A Python exception is represented by its message string; a function call
  that can raise is given the type Except Ex.  Caller-supplied check
  functions can raise, so checks have type Args -> Except Ex Bool; a check
  that never raises is written fun a => Except.ok (p a).
- Mutation of an object is represented by returning the updated record
  together with an Option Ex carrying a propagating exception (none means
  normal return).
- The asyncio.Event signal of a waiter is represented by a Bool field.
- The registry bookkeeping of wait_for and loop_for (which append to and
  remove from EventMgr.event_list) is modelled over a list of object
  identities (Nat), since Python list membership there is by object
  identity of the single mutating waiter object.
-/

/-- Argument tuple delivered with a dispatched event. -/
abbrev Args := List Nat

/-- A Python exception, identified by its message. -/
abbrev Ex := String

/-- Shared state of the abstract base class Processable: the registered
event name, the optional caller-supplied check, and the captured
return_value (last_match_args). -/
structure Processable where
  event_name : String
  check : Option (Args → Except Ex Bool)
  return_value : Option Args

/-- Embedding of Processable.matches_event.  Returns the boolean result of
the source method (or the exception the check raised) together with the
updated object state: if the names differ it returns false and leaves the
state untouched; otherwise it first stores args into return_value and then
evaluates the check when one is present (a function object is always truthy
in Python), or returns true when check is None. -/
def matches_event (m : Processable) (event_name : String) (args : Args) :
    Except Ex Bool × Processable :=
  if m.event_name ≠ event_name then
    (Except.ok false, m)
  else
    let m2 : Processable := { m with return_value := some args }
    match m2.check with
    | some check => (check args, m2)
    | none => (Except.ok true, m2)

/-- State of a _DiscordEvent: the Processable part plus the asyncio.Event
signal it inherits (is_set). -/
structure DiscordEvent extends Processable where
  is_set : Bool

/-- Embedding of _DiscordEvent.process: if matches_event returns true, the
signal is set (set on an already-set event is a no-op); an exception raised
by the check propagates before set is reached. -/
def DiscordEvent.process (e : DiscordEvent) (event_name : String) (args : Args) :
    DiscordEvent × Option Ex :=
  match matches_event e.toProcessable event_name args with
  | (Except.ok true, s2) => ({ toProcessable := s2, is_set := true }, none)
  | (Except.ok false, s2) => ({ toProcessable := s2, is_set := e.is_set }, none)
  | (Except.error ex, s2) => ({ toProcessable := s2, is_set := e.is_set }, some ex)

/-- State of a _LoopMgr: the Processable part, the can_expand flag, the
FIFO deque of captured argument tuples (front of the list is the front of
the deque), and the wake signal wait. -/
structure LoopMgr extends Processable where
  can_expand : Bool
  events : List Args
  wait_set : Bool

/-- Embedding of _LoopMgr.process: a closed manager returns immediately
without touching anything; otherwise on a true match the args are appended
at the back of the deque and the wake signal is set. -/
def LoopMgr.process (m : LoopMgr) (event_name : String) (args : Args) :
    LoopMgr × Option Ex :=
  if ¬ m.can_expand then
    (m, none)
  else
    match matches_event m.toProcessable event_name args with
    | (Except.ok true, s2) =>
      ({ m with toProcessable := s2, events := m.events ++ [args], wait_set := true }, none)
    | (Except.ok false, s2) => ({ m with toProcessable := s2 }, none)
    | (Except.error ex, s2) => ({ m with toProcessable := s2 }, some ex)

/-- Synchronous outcome of one call to _LoopMgr.get_next: it either pops
and returns the front of the deque, raises LoopEmptyError (empty and
closed), or clears the wake signal and suspends on it (empty and open). -/
inductive GetNextRes where
  | item (args : Args) (m : LoopMgr)
  | loopEmpty
  | suspended (m : LoopMgr)

/-- Embedding of _LoopMgr.get_next up to its suspension point: with an
empty deque it raises LoopEmptyError when closed, and otherwise clears the
wake signal and awaits it; with a non-empty deque it pops the front item
and leaves every other field, the wake signal included, unchanged. -/
def LoopMgr.get_next (m : LoopMgr) : GetNextRes :=
  match m.events with
  | [] =>
    if ¬ m.can_expand then GetNextRes.loopEmpty
    else GetNextRes.suspended { m with wait_set := false }
  | a :: rest => GetNextRes.item a { m with events := rest }

/-- A successful pop by get_next shortens the deque by exactly its front
element. -/
theorem get_next_item_events {m m2 : LoopMgr} {a : Args}
    (h : m.get_next = GetNextRes.item a m2) : m.events = a :: m2.events := by
  unfold LoopMgr.get_next at h
  cases he : m.events with
  | nil =>
    rw [he] at h
    by_cases hc : m.can_expand <;> simp [hc] at h
  | cons b rest =>
    rw [he] at h
    simp only [GetNextRes.item.injEq] at h
    rw [h.1, ← h.2]

/-- Embedding of the drain loop inside loop_for (the inner while executed
after the bounded wait times out): it keeps calling get_next, collecting
the yielded items in order, until get_next no longer returns an item
(LoopEmptyError once the manager is closed; the suspension branch is
unreachable there because the manager was just closed). -/
def drainAll (m : LoopMgr) : List Args × LoopMgr :=
  match hg : m.get_next with
  | GetNextRes.item a m2 =>
    have : m2.events.length < m.events.length := by
      rw [get_next_item_events hg]
      simp
    let r := drainAll m2
    (a :: r.1, r.2)
  | GetNextRes.loopEmpty => ([], m)
  | GetNextRes.suspended m2 => ([], m2)
termination_by m.events.length

/-- The drain loop yields exactly the queued items, in FIFO order. -/
theorem drainAll_fst (m : LoopMgr) : (drainAll m).1 = m.events := by
  have H : ∀ (k : Nat) (m : LoopMgr), m.events.length = k → (drainAll m).1 = m.events := by
    intro k
    induction k using Nat.strong_induction_on with
    | _ k ih =>
      intro m hm
      rw [drainAll]
      split
      case _ a m2 hg =>
        have he := get_next_item_events hg
        have hlen : m2.events.length < k := by
          rw [← hm, he]
          simp
        simp only []
        rw [ih m2.events.length hlen m2 rfl, he]
      case _ hg =>
        unfold LoopMgr.get_next at hg
        cases he : m.events with
        | nil => simp
        | cons b rest =>
          rw [he] at hg
          simp at hg
      case _ m2 hg =>
        unfold LoopMgr.get_next at hg
        cases he : m.events with
        | nil => simp
        | cons b rest =>
          rw [he] at hg
          simp at hg
  exact H m.events.length m rfl

/-- A live subscription in EventMgr.event_list: either a one-shot
_DiscordEvent or a streaming _LoopMgr. -/
inductive Subscription where
  | one (e : DiscordEvent)
  | stream (m : LoopMgr)

/-- Dynamic dispatch of process on a subscription. -/
def Subscription.process : Subscription → String → Args → Subscription × Option Ex
  | Subscription.one e, n, a =>
    let r := e.process n a
    (Subscription.one r.1, r.2)
  | Subscription.stream m, n, a =>
    let r := m.process n a
    (Subscription.stream r.1, r.2)

/-- Embedding of EventMgr.process_events: the for loop calls process on
every registered subscription in insertion order; an exception raised by a
check propagates out of the loop, leaving the earlier subscriptions already
mutated and the later ones untouched. -/
def process_events : List Subscription → String → Args → List Subscription × Option Ex
  | [], _, _ => ([], none)
  | s :: rest, n, a =>
    match s.process n a with
    | (s2, none) =>
      let r := process_events rest n a
      (s2 :: r.1, r.2)
    | (s2, some ex) => (s2 :: rest, some ex)

/-- Python truthiness of a timeout value: None and 0.0 are falsy, every
other float is truthy. -/
def truthy : Option Rat → Bool
  | none => false
  | some x => decide (x ≠ 0)

/-- Embedding of the Python builtin min on a list: it raises ValueError on
an empty sequence. -/
def list_min : List Rat → Except Ex Rat
  | [] => Except.error "ValueError: min() arg is an empty sequence"
  | x :: xs => Except.ok (xs.foldl min x)

/-- Embedding of the module function _lowest_value: min over the truthy
arguments (the comprehension drops None and 0.0 alike). -/
def lowest_value (args : List (Option Rat)) : Except Ex Rat :=
  list_min (args.filterMap (fun n => if truthy n then n else none))

/-- Environment input for one iteration of the while loop in loop_for: the
awaited bounded wait either completed with an item after some wall-clock
time, or timed out while the _LoopMgr was in the given state. -/
inductive LoopStep where
  | item (args : Args) (elapsed : Rat)
  | timedOut (m : LoopMgr)

/-- How a run of the while loop in loop_for ends. -/
inductive LoopOutcome where
  | normalStop
  | loopTimeout
  | pyError (e : Ex)
  | cancelled
deriving DecidableEq

/-- Embedding of the while loop of EventMgr.loop_for.  Each iteration
computes the effective bound _lowest_value(loop_timeout, iteration_timeout)
(a raised ValueError propagates), then consumes one environment step:
on an item it yields it and runs the budget bookkeeping
loop_timeout -= elapsed (which is a TypeError when loop_timeout is None),
breaking when the remaining budget is zero or below; on a timeout it sets
can_expand to False, drains the deque yielding every queued item, and ends
by raising TimeoutError.  An exhausted script models the consumer
abandoning the generator (external cancellation). -/
def loop_for_iter (iteration_timeout : Option Rat) (loop_timeout : Option Rat)
    (script : List LoopStep) (acc : List Args) : List Args × LoopOutcome :=
  match script with
  | [] => (acc, LoopOutcome.cancelled)
  | step :: rest =>
    match lowest_value [loop_timeout, iteration_timeout] with
    | Except.error e => (acc, LoopOutcome.pyError e)
    | Except.ok _ =>
      match step with
      | LoopStep.timedOut m =>
        let closed := { m with can_expand := false }
        let drained := drainAll closed
        (acc ++ drained.1, LoopOutcome.loopTimeout)
      | LoopStep.item a elapsed =>
        let acc2 := acc ++ [a]
        match loop_timeout with
        | none =>
          (acc2, LoopOutcome.pyError
            "TypeError: unsupported operand type for -=: NoneType and float")
        | some t =>
          let t2 := t - elapsed
          if t2 ≤ 0 then (acc2, LoopOutcome.normalStop)
          else loop_for_iter iteration_timeout (some t2) rest acc2

/-- Embedding of a whole run of EventMgr.loop_for as seen by the registry:
the body first appends the fresh _LoopMgr (identified by wid) to
event_list and then enters the while loop; no statement of loop_for ever
removes the manager from event_list, on any exit path (normal break,
TimeoutError raise, a raised ValueError or TypeError, or abandonment of
the generator by its consumer), so the final registry is always the
initial one with wid appended. -/
def loop_for_run (event_list : List Nat) (wid : Nat)
    (iteration_timeout loop_timeout : Option Rat) (script : List LoopStep) :
    (List Args × LoopOutcome) × List Nat :=
  (loop_for_iter iteration_timeout loop_timeout script [], event_list ++ [wid])

/-- Embedding of Python list.remove on the identity registry: it removes
the first occurrence of the element (the ValueError branch for a missing
element is unreachable in wait_for, which removes the id it just
appended). -/
def list_remove (l : List Nat) (x : Nat) : List Nat :=
  match l with
  | [] => []
  | y :: rest => if y = x then rest else y :: list_remove rest x

/-- Environment input for one call to EventMgr.wait_for: the awaited
signal either timed out, or was set and the caller resumed with the
one-shot waiter in the given final state. -/
inductive WaitBehavior where
  | timedOut
  | resume (e : DiscordEvent)

/-- Embedding of EventMgr.wait_for as seen by the caller and the registry:
the body appends the fresh _DiscordEvent (identified by wid) to
event_list; on timeout it re-raises TimeoutError before the removal
statement is reached, so the waiter stays registered; on resumption it
removes the waiter and returns the return_value the waiter holds at that
moment. -/
def wait_for_run (event_list : List Nat) (wid : Nat) (behavior : WaitBehavior) :
    Except Ex (Option Args) × List Nat :=
  let registered := event_list ++ [wid]
  match behavior with
  | WaitBehavior.timedOut =>
    (Except.error "TimeoutError: wait_for() timed out while waiting for an event.",
     registered)
  | WaitBehavior.resume e =>
    (Except.ok e.return_value, list_remove registered wid)

/-- Fold a list of dispatches (event name and args) over a one-shot
waiter, mirroring repeated calls to _DiscordEvent.process before the
suspended caller resumes. -/
def processList (e : DiscordEvent) (ds : List (String × Args)) : DiscordEvent :=
  ds.foldl (fun acc d => (acc.process d.1 d.2).1) e

/-- The args of the last dispatch in the list whose name equals the given
name, if any. -/
def lastMatchArgs (name : String) : List (String × Args) → Option Args
  | [] => none
  | d :: ds =>
    match lastMatchArgs name ds with
    | some a => some a
    | none => if d.1 == name then some d.2 else none

/-- Helper: one dispatch processed by a one-shot waiter with an arbitrary
check preserves the registered name and the check, overwrites return_value
with the args exactly when the names match (whatever the check then
returns or raises, since the capture precedes the check call), and never
clears an already-set signal. -/
theorem process_fields (e : DiscordEvent) (n : String) (a : Args) :
    (e.process n a).1.event_name = e.event_name ∧
    (e.process n a).1.check = e.check ∧
    (e.process n a).1.return_value =
      (if e.event_name = n then some a else e.return_value) ∧
    (e.is_set = true → (e.process n a).1.is_set = true) := by
  by_cases h : e.event_name = n
  · cases hc : e.check with
    | none => simp [DiscordEvent.process, matches_event, h, hc]
    | some c =>
      cases hca : c a with
      | ok b =>
        cases b <;> simp [DiscordEvent.process, matches_event, h, hc, hca]
      | error ex => simp [DiscordEvent.process, matches_event, h, hc, hca]
  · simp [DiscordEvent.process, matches_event, h]

/-- Helper: when process propagates an exception, the raising check ran
after the capture, so return_value already holds the args of the event. -/
theorem process_raise_captured (e : DiscordEvent) (n : String) (a : Args)
    (ex : Ex) (h : (e.process n a).2 = some ex) :
    (e.process n a).1.return_value = some a := by
  by_cases hn : e.event_name = n
  · unfold DiscordEvent.process at h ⊢
    simp only [matches_event, hn] at h ⊢
    simp at h ⊢
    cases hc : e.check with
    | none => simp [hc] at h
    | some c =>
      simp [hc] at h ⊢
      cases hca : c a with
      | ok b => rw [hca] at h; cases b <;> simp at h
      | error ex2 => simp
  · simp [DiscordEvent.process, matches_event, hn] at h

/-- C1: the spec requires the StreamingWaiter registered by loop_for to be
removed from event_list by the time the sequence terminates, on every
path.  The source never removes it: this theorem evaluates one run per
termination path (normal stop with the loop budget exhausted, loop-timeout
after draining, and abandonment by the consumer) and shows the registry
still holds the waiter id afterwards in each case. -/
theorem loop_for_leaves_waiter_registered :
    (loop_for_run [] 7 none (some 1) [LoopStep.item [5] 2]).1.2 =
      LoopOutcome.normalStop ∧
    (loop_for_run [] 7 none (some 1) [LoopStep.item [5] 2]).2 = [7] ∧
    (loop_for_run [] 7 none (some 1)
      [LoopStep.timedOut ⟨⟨"on_m", none, none⟩, true, [], true⟩]).1.2 =
      LoopOutcome.loopTimeout ∧
    (loop_for_run [] 7 none (some 1)
      [LoopStep.timedOut ⟨⟨"on_m", none, none⟩, true, [], true⟩]).2 = [7] ∧
    (loop_for_run [] 7 none (some 1) []).1.2 = LoopOutcome.cancelled ∧
    (loop_for_run [] 7 none (some 1) []).2 = [7] := by
  refine ⟨?_, rfl, ?_, rfl, rfl, rfl⟩
  · norm_num [loop_for_run, loop_for_iter, lowest_value, list_min, truthy,
      List.filterMap_cons, List.filterMap_nil]
  · norm_num [loop_for_run, loop_for_iter, lowest_value, list_min, truthy,
      drainAll_fst, List.filterMap_cons, List.filterMap_nil]

/-- C2: a wait_for whose timeout elapses does fail with TimeoutError, but
the source re-raises before the removal statement, so the OneShotWaiter is
still in event_list afterwards: the registry that started empty ends as
the one-element list holding the waiter id. -/
theorem wait_for_timeout_leaks_waiter :
    (wait_for_run [] 0 WaitBehavior.timedOut).1 =
      Except.error
        "TimeoutError: wait_for() timed out while waiting for an event." ∧
    (wait_for_run [] 0 WaitBehavior.timedOut).2 = [0] :=
  ⟨rfl, rfl⟩

/-- C3: with both bounds absent the spec calls the configuration legal and
requires an unbounded wait, but the effective-bound computation
_lowest_value(None, None) is min of an empty list and raises ValueError,
so the first iteration of loop_for fails before waiting at all. -/
theorem lowest_value_both_absent_raises :
    lowest_value [none, none] =
      Except.error "ValueError: min() arg is an empty sequence" ∧
    loop_for_iter none none [LoopStep.item [1] 1] [] =
      ([], LoopOutcome.pyError "ValueError: min() arg is an empty sequence") :=
  ⟨rfl, rfl⟩

/-- C4: with an absent loop_timeout and a present iteration_timeout the
bounded wait succeeds and the item is yielded, but the budget bookkeeping
subtracts a float from None and raises TypeError instead of continuing to
the next iteration. -/
theorem loop_for_absent_loop_timeout_raises :
    loop_for_iter (some 5) none [LoopStep.item [1] 1] [] =
      ([[1]],
       LoopOutcome.pyError
         "TypeError: unsupported operand type for -=: NoneType and float") :=
  rfl

/-- C9: matches_event returns false and leaves the state unchanged when
the names differ under strict string equality; when the names match it
stores args into return_value unconditionally, and the boolean result is
the check applied to args when a check is present and true otherwise. -/
theorem matches_event_contract (m : Processable) (n : String) (a : Args) :
    (m.event_name ≠ n → matches_event m n a = (Except.ok false, m)) ∧
    (m.event_name = n →
      matches_event m n a =
        ((match m.check with
          | some check => check a
          | none => Except.ok true),
         { m with return_value := some a })) := by
  constructor
  · intro h
    simp [matches_event, h]
  · intro h
    cases hc : m.check with
    | none => simp [matches_event, h, hc]
    | some c => simp [matches_event, h, hc]

/-- Witness for C9 at concrete inputs: a case-differing name is rejected
with no capture, and a matching name with no check succeeds and captures
the args. -/
theorem matches_event_contract_witness :
    ((⟨"on_x", none, none⟩ : Processable).event_name ≠ "on_X" ∧
      matches_event ⟨"on_x", none, none⟩ "on_X" [1] =
        (Except.ok false, ⟨"on_x", none, none⟩)) ∧
    ((⟨"on_x", none, none⟩ : Processable).event_name = "on_x" ∧
      matches_event ⟨"on_x", none, none⟩ "on_x" [1] =
        (Except.ok true, ⟨"on_x", none, some [1]⟩)) :=
  ⟨⟨by decide, (matches_event_contract ⟨"on_x", none, none⟩ "on_X" [1]).1 (by decide)⟩,
   ⟨rfl, (matches_event_contract ⟨"on_x", none, none⟩ "on_x" [1]).2 rfl⟩⟩

/-- C7 counterexample: a pop that empties the queue leaves the wake signal
raised, so the claimed signal-iff-items-remain invariant is false right
after the pop. -/
theorem get_next_pop_leaves_signal_raised :
    LoopMgr.get_next ⟨⟨"on_m", none, none⟩, true, [[1]], true⟩ =
      GetNextRes.item [1] ⟨⟨"on_m", none, none⟩, true, [], true⟩ ∧
    ¬ ((⟨⟨"on_m", none, none⟩, true, [], true⟩ : LoopMgr).wait_set = true ↔
        (⟨⟨"on_m", none, none⟩, true, [], true⟩ : LoopMgr).events ≠ []) :=
  ⟨rfl, by decide⟩

/-- C7 amended: a pop by get_next leaves the wake signal unchanged, however
the queue ends up; the signal is instead cleared at the start of the next
empty wait, since get_next on an empty open queue clears the signal before
suspending, so future waits on an empty open queue do suspend. -/
theorem get_next_signal_discipline (m : LoopMgr) :
    (∀ a m2, m.get_next = GetNextRes.item a m2 →
      m2.wait_set = m.wait_set ∧ m.events = a :: m2.events) ∧
    (m.events = [] → m.can_expand = true →
      m.get_next = GetNextRes.suspended { m with wait_set := false }) := by
  constructor
  · intro a m2 h
    refine ⟨?_, get_next_item_events h⟩
    unfold LoopMgr.get_next at h
    cases he : m.events with
    | nil =>
      rw [he] at h
      by_cases hc : m.can_expand <;> simp [hc] at h
    | cons b rest =>
      rw [he] at h
      simp only [GetNextRes.item.injEq] at h
      rw [← h.2]
  · intro he hc
    unfold LoopMgr.get_next
    rw [he]
    simp [hc]

/-- Witness for the amended C7 at concrete inputs: a pop keeps the signal
raised, and a wait on an empty open queue suspends with the signal
cleared. -/
theorem get_next_signal_discipline_witness :
    (⟨⟨"on_m", none, none⟩, true, [], true⟩ : LoopMgr).wait_set =
      (⟨⟨"on_m", none, none⟩, true, [[1]], true⟩ : LoopMgr).wait_set ∧
    LoopMgr.get_next ⟨⟨"on_m", none, none⟩, true, [], true⟩ =
      GetNextRes.suspended ⟨⟨"on_m", none, none⟩, true, [], false⟩ :=
  ⟨((get_next_signal_discipline ⟨⟨"on_m", none, none⟩, true, [[1]], true⟩).1
      [1] ⟨⟨"on_m", none, none⟩, true, [], true⟩ rfl).1,
   (get_next_signal_discipline ⟨⟨"on_m", none, none⟩, true, [], true⟩).2 rfl rfl⟩

/-- C5 counterexample: a fresh waiter for on_m receives a first successful
match with args [1], which captures [1] and raises the signal; before the
caller resumes, a second matching dispatch with args [2] overwrites the
capture, and wait_for returns [2], not the [1] captured at the moment of
the first successful match. -/
theorem wait_for_returns_overwritten_args :
    (DiscordEvent.process ⟨⟨"on_m", none, none⟩, false⟩ "on_m" [1]).1 =
      (⟨⟨"on_m", none, some [1]⟩, true⟩ : DiscordEvent) ∧
    (DiscordEvent.process ⟨⟨"on_m", none, some [1]⟩, true⟩ "on_m" [2]).1 =
      (⟨⟨"on_m", none, some [2]⟩, true⟩ : DiscordEvent) ∧
    (wait_for_run [] 0
      (WaitBehavior.resume ⟨⟨"on_m", none, some [2]⟩, true⟩)).1 =
      Except.ok (some [2]) ∧
    some ([2] : Args) ≠ some [1] :=
  ⟨rfl, rfl, rfl, by decide⟩

/-- C5 amended: at most one resumption per waiter still holds (the signal
is binary and never cleared, so once raised it stays raised), but for a
waiter with any check whatsoever the value wait_for returns is the
return_value held at the moment the caller resumes, which is the args of
the most recent name-matching dispatch before resumption even when the
check rejected (or raised on) that dispatch, not the args of the first
successful match. -/
theorem wait_for_returns_last_match (e : DiscordEvent)
    (ds : List (String × Args)) :
    (e.is_set = true → (processList e ds).is_set = true) ∧
    (processList e ds).return_value =
      (match lastMatchArgs e.event_name ds with
       | some a => some a
       | none => e.return_value) ∧
    ∀ r w, (wait_for_run r w (WaitBehavior.resume (processList e ds))).1 =
      Except.ok (processList e ds).return_value := by
  induction ds generalizing e with
  | nil => exact ⟨fun h => h, by simp [processList, lastMatchArgs], fun r w => rfl⟩
  | cons d ds ih =>
    have hstep : processList e (d :: ds) = processList (e.process d.1 d.2).1 ds := rfl
    have hf := process_fields e d.1 d.2
    have ih2 := ih (e.process d.1 d.2).1
    refine ⟨?_, ?_, fun r w => rfl⟩
    · intro hset
      rw [hstep]
      exact ih2.1 (hf.2.2.2 hset)
    · rw [hstep, ih2.2.1, hf.1, hf.2.2.1]
      simp only [lastMatchArgs]
      cases hl : lastMatchArgs e.event_name ds with
      | some a => simp
      | none =>
        by_cases h : e.event_name = d.1
        · simp [h]
        · have hb : (d.1 == e.event_name) = false := by
            simp
            exact fun hh => h hh.symm
          simp [h, hb]

/-- Witness for the amended C5 at concrete inputs: a waiter whose check
accepts only the payload [1] sees a first dispatch that matches and is
accepted (capturing [1] and raising the signal) and then a second
name-matching dispatch whose payload [2] the check rejects; the rejected
dispatch still overwrites the capture, so the value handed back at
resumption is [2]. -/
theorem wait_for_returns_last_match_witness :
    (processList
      ⟨⟨"on_m", some (fun a => Except.ok (a == [1])), none⟩, false⟩
      [("on_m", [1]), ("on_m", [2])]).return_value = some [2] ∧
    (processList
      ⟨⟨"on_m", some (fun a => Except.ok (a == [1])), none⟩, false⟩
      [("on_m", [1]), ("on_m", [2])]).is_set = true ∧
    (wait_for_run [] 0 (WaitBehavior.resume (processList
      ⟨⟨"on_m", some (fun a => Except.ok (a == [1])), none⟩, false⟩
      [("on_m", [1]), ("on_m", [2])]))).1 = Except.ok (some [2]) := by
  refine ⟨?_, rfl, rfl⟩
  have h := (wait_for_returns_last_match
    ⟨⟨"on_m", some (fun a => Except.ok (a == [1])), none⟩, false⟩
    [("on_m", [1]), ("on_m", [2])]).2.1
  rw [h]
  rfl

/-- C6: once a StreamingWaiter is closed, process is a no-op even for a
matching dispatch; get_next keeps popping the already-queued items in FIFO
order (the drain yields exactly the queue) and raises LoopEmptyError only
once the queue is empty; and the timeout handler of loop_for then ends the
sequence with the loop-timeout outcome after yielding the whole backlog. -/
theorem closed_waiter_drain_semantics (m : LoopMgr) (n : String) (a : Args)
    (it lt : Option Rat) (script : List LoopStep) (acc : List Args) (bound : Rat)
    (hclosed : m.can_expand = false)
    (hbound : lowest_value [lt, it] = Except.ok bound) :
    m.process n a = (m, none) ∧
    (drainAll m).1 = m.events ∧
    (m.events = [] → m.get_next = GetNextRes.loopEmpty) ∧
    (∀ x rest, m.events = x :: rest →
      m.get_next = GetNextRes.item x { m with events := rest }) ∧
    loop_for_iter it lt (LoopStep.timedOut m :: script) acc =
      (acc ++ m.events, LoopOutcome.loopTimeout) := by
  refine ⟨?_, drainAll_fst m, ?_, ?_, ?_⟩
  · simp [LoopMgr.process, hclosed]
  · intro he
    simp [LoopMgr.get_next, he, hclosed]
  · intro x rest he
    simp [LoopMgr.get_next, he]
  · simp [loop_for_iter, hbound, drainAll_fst]

/-- Witness for C6 at concrete inputs: a closed waiter with two queued
items ignores a matching dispatch, drains both items in order, and the
loop_for timeout handler yields them and ends with loop-timeout. -/
theorem closed_waiter_drain_semantics_witness :
    (⟨⟨"on_m", none, none⟩, false, [[1], [2]], true⟩ : LoopMgr).can_expand =
      false ∧
    lowest_value [some 5, none] = Except.ok 5 ∧
    LoopMgr.process ⟨⟨"on_m", none, none⟩, false, [[1], [2]], true⟩ "on_m" [3] =
      (⟨⟨"on_m", none, none⟩, false, [[1], [2]], true⟩, none) ∧
    (drainAll ⟨⟨"on_m", none, none⟩, false, [[1], [2]], true⟩).1 = [[1], [2]] ∧
    loop_for_iter none (some 5)
      [LoopStep.timedOut ⟨⟨"on_m", none, none⟩, false, [[1], [2]], true⟩] [] =
      ([[1], [2]], LoopOutcome.loopTimeout) := by
  have h := closed_waiter_drain_semantics
    ⟨⟨"on_m", none, none⟩, false, [[1], [2]], true⟩ "on_m" [3] none (some 5)
    [] [] 5 rfl rfl
  exact ⟨rfl, rfl, h.1, h.2.1, h.2.2.2.2⟩

/-- C8: process_events calls process on every subscription in insertion
order unconditionally, so when every registered subscription is a one-shot
waiter for the dispatched name with no check, a single dispatch raises no
exception, processes the list elementwise in order, and leaves every
waiter set with the same captured payload. -/
theorem dispatch_resolves_all_one_shot_waiters (l : List Subscription)
    (n : String) (a : Args)
    (h : ∀ s ∈ l, ∃ rv b, s = Subscription.one ⟨⟨n, none, rv⟩, b⟩) :
    (process_events l n a).2 = none ∧
    (process_events l n a).1 = l.map (fun s => (s.process n a).1) ∧
    ∀ s2 ∈ (process_events l n a).1,
      s2 = Subscription.one ⟨⟨n, none, some a⟩, true⟩ := by
  induction l with
  | nil => simp [process_events]
  | cons s rest ih =>
    obtain ⟨rv, b, hs⟩ := h s (List.mem_cons_self s rest)
    have ihr := ih (fun x hx => h x (List.mem_cons_of_mem s hx))
    subst hs
    have hhead :
        Subscription.process (Subscription.one ⟨⟨n, none, rv⟩, b⟩) n a =
          (Subscription.one ⟨⟨n, none, some a⟩, true⟩, none) := by
      simp [Subscription.process, DiscordEvent.process, matches_event]
    refine ⟨?_, ?_, ?_⟩
    · simp [process_events, hhead, ihr.1]
    · simp [process_events, hhead, ihr.2.1]
    · intro s2 hs2
      simp only [process_events, hhead] at hs2
      rcases List.mem_cons.mp hs2 with h1 | h2
      · exact h1
      · exact ihr.2.2 s2 h2

/-- Witness for C8 at concrete inputs: one hundred independent waiters for
the same name are all resolved by a single dispatch with the same payload,
with no exception. -/
theorem dispatch_resolves_all_one_shot_waiters_witness :
    (process_events
      (List.replicate 100 (Subscription.one ⟨⟨"on_x", none, none⟩, false⟩))
      "on_x" [4]).2 = none ∧
    (process_events
      (List.replicate 100 (Subscription.one ⟨⟨"on_x", none, none⟩, false⟩))
      "on_x" [4]).1 =
      List.replicate 100 (Subscription.one ⟨⟨"on_x", none, some [4]⟩, true⟩) := by
  have h := dispatch_resolves_all_one_shot_waiters
    (List.replicate 100 (Subscription.one ⟨⟨"on_x", none, none⟩, false⟩))
    "on_x" [4]
    (fun s hs => ⟨none, false, by rw [List.eq_of_mem_replicate hs]⟩)
  have h2 := h.2.1
  rw [List.map_replicate] at h2
  exact ⟨h.1, h2⟩

/-- C10: when the check of some registered one-shot subscription raises
during a dispatch, the exception propagates out of process_events, the
subscriptions after the raising one are left untouched by that event, and
the raising subscription has already overwritten its return_value with the
args of the event. -/
theorem check_exception_propagates (l1 l2 : List Subscription)
    (e : DiscordEvent) (n : String) (a : Args) (ex : Ex)
    (h1 : (process_events l1 n a).2 = none)
    (h2 : (e.process n a).2 = some ex) :
    (process_events (l1 ++ Subscription.one e :: l2) n a).2 = some ex ∧
    (process_events (l1 ++ Subscription.one e :: l2) n a).1 =
      (process_events l1 n a).1 ++ Subscription.one (e.process n a).1 :: l2 ∧
    (e.process n a).1.return_value = some a := by
  have key : ∀ l1, (process_events l1 n a).2 = none →
      process_events (l1 ++ Subscription.one e :: l2) n a =
        ((process_events l1 n a).1 ++ Subscription.one (e.process n a).1 :: l2,
         some ex) := by
    intro l1
    induction l1 with
    | nil =>
      intro _
      have hsub : Subscription.process (Subscription.one e) n a =
          (Subscription.one (e.process n a).1, (e.process n a).2) := rfl
      simp only [List.nil_append, process_events, hsub, h2]
    | cons s rest ih =>
      intro hr
      simp only [process_events] at hr ⊢
      cases hp : s.process n a with
      | mk s2 exo =>
        rw [hp] at hr
        cases exo with
        | some ex2 => simp at hr
        | none =>
          simp only at hr
          have hrest := ih hr
          simp only [List.cons_append, process_events, hp]
          simp [hrest]
  refine ⟨?_, ?_, process_raise_captured e n a ex h2⟩
  · rw [key l1 h1]
  · rw [key l1 h1]

/-- Witness for C10 at concrete inputs: with a raising check in the middle
of three same-name subscriptions, the dispatch processes the first, raises
out of process_events leaving the third untouched, and the raiser has
captured the event args. -/
theorem check_exception_propagates_witness :
    (process_events [Subscription.one ⟨⟨"on_x", none, none⟩, false⟩]
      "on_x" [3]).2 = none ∧
    (DiscordEvent.process
      ⟨⟨"on_x", some (fun _ => Except.error "boom"), none⟩, false⟩
      "on_x" [3]).2 = some "boom" ∧
    (process_events
      ([Subscription.one ⟨⟨"on_x", none, none⟩, false⟩] ++
        Subscription.one
          ⟨⟨"on_x", some (fun _ => Except.error "boom"), none⟩, false⟩ ::
        [Subscription.one ⟨⟨"on_x", none, none⟩, false⟩])
      "on_x" [3]).2 = some "boom" ∧
    (DiscordEvent.process
      ⟨⟨"on_x", some (fun _ => Except.error "boom"), none⟩, false⟩
      "on_x" [3]).1.return_value = some [3] := by
  have h := check_exception_propagates
    [Subscription.one ⟨⟨"on_x", none, none⟩, false⟩]
    [Subscription.one ⟨⟨"on_x", none, none⟩, false⟩]
    ⟨⟨"on_x", some (fun _ => Except.error "boom"), none⟩, false⟩
    "on_x" [3] "boom" rfl rfl
  exact ⟨rfl, rfl, h.1, h.2.2⟩
